import Mathlib

/-!
Verification of the RPN calculator in `src/main.rs` (crate `samplecli`).

The evaluator (`RpnCalculator::eval` / `RpnCalculator::eval_inner`) is embedded
shallowly:

* machine integers `i32` are embedded as `Int`; the two's-complement range is
  `[-2147483648, 2147483647]`; `+`, `-`, `*` are embedded with wrap-around
  (two's-complement) semantics via `wrap32`; `/` and `%` are Rust's truncated
  division `Int.tdiv` and truncated remainder `Int.tmod`, and the inputs on
  which Rust unconditionally panics (`y = 0`, or `x = i32::MIN ∧ y = -1`)
  are embedded as the distinguished outcome `RpnError.arithPanic`;
* `str::parse::<i32>` is embedded as `parseI32` (optional leading `+`/`-`,
  ASCII decimal digits only, range-checked);
* `str::split_whitespace` is embedded as `splitWhitespace` over the Unicode
  `White_Space` class used by Rust's `char::is_whitespace`;
* the Rust loop pops tokens off the reversed token vector; this is embedded as
  head-first structural recursion over the in-order token list, which performs
  the identical sequence of steps;
* the `println!` executed per token under the verbose flag is embedded as a
  pure trace: `RpnCalculator.eval` returns the evaluation result together with
  the list of diagnostic lines (each line being the printed pair of the
  remaining reversed token vector and the stack, bottom-to-top).

`stepsVal`/`evalVal` are the trace-free value semantics of the same loop and
are proved (in `evalStepsT_fst`/`eval_fst`) to coincide with the result
component of the full embedding.
-/

/-- `i32::MIN`. -/
def i32Min : Int := -2147483648

/-- `i32::MAX`. -/
def i32Max : Int := 2147483647

/-- Two's-complement wrap-around into the `i32` range: the value of a Rust
release-profile `i32` addition/subtraction/multiplication result. -/
def wrap32 (v : Int) : Int := (v + 2147483648) % 4294967296 - 2147483648

/-- Value of a list of ASCII decimal digit characters, most significant
first, as accumulated by `from_str_radix` (base 10). -/
def digitsVal (ds : List Char) : Nat :=
  List.foldl (fun acc c => acc * 10 + (c.toNat - Char.toNat '0')) 0 ds

/-- Sign handling of Rust's `from_str_radix`: an optional single leading
`+` or `-` is stripped; the first component is the resulting sign. -/
def splitSign : List Char → Int × List Char
  | [] => (1, [])
  | c :: rest =>
    if c = '-' then (-1, rest)
    else if c = '+' then (1, rest)
    else (1, c :: rest)

/-- Embedding of `str::parse::<i32>()`: optional leading sign, one or more
ASCII decimal digits, value within the `i32` range; anything else is `none`. -/
def parseI32 (s : String) : Option Int :=
  if (splitSign s.data).2 = [] then none
  else if (splitSign s.data).2.all Char.isDigit then
    if i32Min ≤ (splitSign s.data).1 * (digitsVal (splitSign s.data).2 : Int) ∧
        (splitSign s.data).1 * (digitsVal (splitSign s.data).2 : Int) ≤ i32Max then
      some ((splitSign s.data).1 * (digitsVal (splitSign s.data).2 : Int))
    else none
  else none

/-- Code points of Rust's `char::is_whitespace` (Unicode `White_Space`). -/
def rustWsCodes : List Nat :=
  [0x9, 0xA, 0xB, 0xC, 0xD, 0x20, 0x85, 0xA0, 0x1680,
   0x2000, 0x2001, 0x2002, 0x2003, 0x2004, 0x2005, 0x2006, 0x2007,
   0x2008, 0x2009, 0x200A, 0x2028, 0x2029, 0x202F, 0x205F, 0x3000]

/-- Embedding of `char::is_whitespace`. -/
def isRustWhitespace (c : Char) : Bool := rustWsCodes.contains c.toNat

/-- Worker of `splitWhitespace`: `acc` holds the reversed characters of the
token currently being accumulated. -/
def splitWsAux : List Char → List Char → List (List Char)
  | [], acc => if acc = [] then [] else [acc.reverse]
  | c :: cs, acc =>
    if isRustWhitespace c then
      if acc = [] then splitWsAux cs [] else acc.reverse :: splitWsAux cs []
    else splitWsAux cs (c :: acc)

/-- Embedding of `str::split_whitespace`: the maximal non-whitespace
substrings of `s`, in left-to-right order, no empty tokens. -/
def splitWhitespace (s : String) : List String :=
  (splitWsAux s.data []).map (fun l => String.mk l)

/-- Structured error kinds of the evaluator (the `anyhow` messages
`"invalid syntax at {pos}"`, `"invalid token at {pos}"`, `"invalid syntax"`),
plus `arithPanic` for the inputs on which the Rust arithmetic panics. -/
inductive RpnError
  | invalidSyntaxAt (pos : Nat)
  | invalidTokenAt (pos : Nat)
  | invalidSyntaxFinal
  | arithPanic
deriving DecidableEq, Repr

instance exceptDecEq {ε α : Type} [DecidableEq ε] [DecidableEq α] :
    DecidableEq (Except ε α)
  | .ok a, .ok b =>
    if h : a = b then .isTrue (by rw [h])
    else .isFalse (by intro hc; cases hc; exact h rfl)
  | .ok _, .error _ => .isFalse (by intro hc; cases hc)
  | .error _, .ok _ => .isFalse (by intro hc; cases hc)
  | .error a, .error b =>
    if h : a = b then .isTrue (by rw [h])
    else .isFalse (by intro hc; cases hc; exact h rfl)

/-- One verbose diagnostic line: the remaining (reversed) token vector and
the stack bottom-to-top, as printed by `println!("{:?} {:?}", tokens, stack)`. -/
abbrev TraceLine := List String × List Int

/-- The `match token` arms of `eval_inner` (lines 63–70 of `main.rs`),
applied after the two pops succeeded: `x` is the deeper operand, `y` the top.
`+`, `-`, `*` wrap (release profile); `/`, `%` are truncated division and
remainder, panicking (embedded as `arithPanic`) on division by zero and on
`i32::MIN / -1` overflow; any other token is `invalid token at pos`. -/
def applyOp (t : String) (x y : Int) (pos : Nat) : Except RpnError Int :=
  if t = "+" then .ok (wrap32 (x + y))
  else if t = "-" then .ok (wrap32 (x - y))
  else if t = "*" then .ok (wrap32 (x * y))
  else if t = "/" then
    if y = 0 ∨ (x = i32Min ∧ y = -1) then .error .arithPanic
    else .ok (Int.tdiv x y)
  else if t = "%" then
    if y = 0 ∨ (x = i32Min ∧ y = -1) then .error .arithPanic
    else .ok (Int.tmod x y)
  else .error (.invalidTokenAt pos)

/-- The `while let Some(token) = tokens.pop()` loop of `eval_inner`, with the
verbose `println!` captured as a trace.  The stack is a `List Int` with the
head as top of stack; `pos` is the position counter before the next token.
Returns the final stack (or the first error) and the emitted trace lines. -/
def evalStepsT (vb : Bool) : List String → List Int → Nat →
    Except RpnError (List Int) × List TraceLine
  | [], stack, _ => (.ok stack, [])
  | t :: ts, stack, pos =>
    match parseI32 t with
    | some x =>
      let st := x :: stack
      let rest := evalStepsT vb ts st (pos + 1)
      (rest.1, (if vb then [(ts.reverse, st.reverse)] else []) ++ rest.2)
    | none =>
      match stack with
      | y :: x :: s0 =>
        match applyOp t x y (pos + 1) with
        | .ok res =>
          let st := res :: s0
          let rest := evalStepsT vb ts st (pos + 1)
          (rest.1, (if vb then [(ts.reverse, st.reverse)] else []) ++ rest.2)
        | .error e => (.error e, [])
      | _ => (.error (.invalidSyntaxAt (pos + 1)), [])

/-- `eval_inner`: run the loop from an empty stack and position 0, then
`ensure!(stack.len() == 1)` and return `stack[0]`. -/
def evalInnerT (vb : Bool) (ts : List String) : Except RpnError Int × List TraceLine :=
  match evalStepsT vb ts [] 0 with
  | (.ok st, tr) =>
    match st with
    | [v] => (.ok v, tr)
    | _ => (.error .invalidSyntaxFinal, tr)
  | (.error e, tr) => (.error e, tr)

/-- `struct RpnCalculator(bool)`: the only field is the verbosity flag. -/
structure RpnCalculator where
  verbose : Bool

/-- `RpnCalculator::new`. -/
def RpnCalculator.new (verbose : Bool) : RpnCalculator := ⟨verbose⟩

/-- `RpnCalculator::eval`: split the formula on whitespace and run
`eval_inner`.  The first component is the returned `Result<i32>`; the second
is the verbose diagnostic output. -/
def RpnCalculator.eval (c : RpnCalculator) (formula : String) :
    Except RpnError Int × List TraceLine :=
  evalInnerT c.verbose (splitWhitespace formula)

/-- Trace-free value semantics of the token loop. -/
def stepsVal : List String → List Int → Nat → Except RpnError (List Int)
  | [], stack, _ => .ok stack
  | t :: ts, stack, pos =>
    match parseI32 t with
    | some x => stepsVal ts (x :: stack) (pos + 1)
    | none =>
      match stack with
      | y :: x :: s0 =>
        match applyOp t x y (pos + 1) with
        | .ok res => stepsVal ts (res :: s0) (pos + 1)
        | .error e => .error e
      | _ => .error (.invalidSyntaxAt (pos + 1))

/-- Trace-free value semantics of `eval_inner`. -/
def evalVal (ts : List String) : Except RpnError Int :=
  match stepsVal ts [] 0 with
  | .ok st =>
    match st with
    | [v] => .ok v
    | _ => .error .invalidSyntaxFinal
  | .error e => .error e

/-- A token is numeric iff Rust's `i32` parse succeeds on it. -/
def isNumTok (t : String) : Bool := (parseI32 t).isSome

/-- Number of numeric tokens in a token list. -/
def numCount (ts : List String) : Nat := List.countP isNumTok ts

/-- Number of non-numeric tokens in a token list. -/
def opCount (ts : List String) : Nat := List.countP (fun t => ! isNumTok t) ts

/-- ASCII decimal digit character for `d < 10`. -/
def digitChar (d : Nat) : Char := Char.ofNat (Char.toNat '0' + d)

/-- Decimal digit characters of `n`, most significant first; the first
argument is fuel (any bound strictly greater than `n` suffices). -/
def natDecimalAux : Nat → Nat → List Char
  | 0, _ => []
  | fuel + 1, n =>
    if n < 10 then [digitChar n]
    else natDecimalAux fuel (n / 10) ++ [digitChar (n % 10)]

/-- Decimal digit characters of `n`, most significant first. -/
def natDecimal (n : Nat) : List Char := natDecimalAux (n + 1) n

/-- The decimal rendering of an integer: digits of its absolute value,
preceded by `-` when negative (the spec's "decimal rendering of n"). -/
def render (n : Int) : String :=
  if n < 0 then String.mk ('-' :: natDecimal n.natAbs)
  else String.mk (natDecimal n.natAbs)

/-- The result component of the traced loop is the trace-free value
semantics: the verbose printing never influences the computed value. -/
theorem evalStepsT_fst (vb : Bool) (ts : List String) : ∀ stack pos,
    (evalStepsT vb ts stack pos).1 = stepsVal ts stack pos := by
  induction ts with
  | nil => intro stack pos; rfl
  | cons t ts ih =>
    intro stack pos
    simp only [evalStepsT, stepsVal]
    cases h : parseI32 t with
    | some x => simp [h, ih]
    | none =>
      simp only [h]
      cases stack with
      | nil => simp
      | cons y s =>
        cases s with
        | nil => simp
        | cons x s0 =>
          cases hop : applyOp t x y (pos + 1) with
          | ok res => simp [hop, ih]
          | error e => simp [hop]

/-- The result component of `RpnCalculator.eval` is `evalVal` of the token
list, for any verbosity. -/
theorem eval_fst (c : RpnCalculator) (f : String) :
    (c.eval f).1 = evalVal (splitWhitespace f) := by
  unfold RpnCalculator.eval evalInnerT evalVal
  rw [← evalStepsT_fst c.verbose (splitWhitespace f) [] 0]
  cases hE : evalStepsT c.verbose (splitWhitespace f) [] 0 with
  | mk r tr =>
    cases r with
    | error e => rfl
    | ok st =>
      cases st with
      | nil => rfl
      | cons v s =>
        cases s with
        | nil => rfl
        | cons w s2 => rfl

/-- Splitting the token loop at a list boundary: running `as ++ bs` is
running `as`, then (unless it errored) running `bs` from the resulting
stack with the position advanced by `as.length`. -/
theorem stepsVal_append (as bs : List String) : ∀ stack pos,
    stepsVal (as ++ bs) stack pos =
      match stepsVal as stack pos with
      | .ok st => stepsVal bs st (pos + as.length)
      | .error e => .error e := by
  induction as with
  | nil => intro stack pos; simp [stepsVal]
  | cons a as ih =>
    intro stack pos
    simp only [List.cons_append, stepsVal, List.length_cons]
    cases h : parseI32 a with
    | some x =>
      simp only [h]
      rw [show pos + (as.length + 1) = pos + 1 + as.length from by omega]
      exact ih (x :: stack) (pos + 1)
    | none =>
      simp only [h]
      cases stack with
      | nil => simp
      | cons y s =>
        cases s with
        | nil => simp
        | cons x s0 =>
          cases hop : applyOp a x y (pos + 1) with
          | ok res =>
            simp only [hop]
            rw [show pos + (as.length + 1) = pos + 1 + as.length from by omega]
            exact ih (res :: s0) (pos + 1)
          | error e => simp [hop]

theorem parseI32_plus : parseI32 "+" = none := by decide

theorem parseI32_minus : parseI32 "-" = none := by decide

theorem parseI32_star : parseI32 "*" = none := by decide

theorem parseI32_slash : parseI32 "/" = none := by decide

theorem parseI32_percent : parseI32 "%" = none := by decide

/-- Wrap-around is the identity inside the `i32` range. -/
theorem wrap32_eq_self (v : Int) (h1 : i32Min ≤ v) (h2 : v ≤ i32Max) :
    wrap32 v = v := by
  simp only [wrap32, i32Min, i32Max] at *
  omega

theorem applyOp_add (x y : Int) (p : Nat) :
    applyOp "+" x y p = .ok (wrap32 (x + y)) := rfl

theorem applyOp_sub (x y : Int) (p : Nat) :
    applyOp "-" x y p = .ok (wrap32 (x - y)) := rfl

theorem applyOp_mul (x y : Int) (p : Nat) :
    applyOp "*" x y p = .ok (wrap32 (x * y)) := rfl

theorem applyOp_div (x y : Int) (p : Nat) (hy : y ≠ 0)
    (hov : ¬(x = i32Min ∧ y = -1)) :
    applyOp "/" x y p = .ok (Int.tdiv x y) := by
  have h0 : applyOp "/" x y p =
      if y = 0 ∨ (x = i32Min ∧ y = -1) then .error .arithPanic
      else .ok (Int.tdiv x y) := rfl
  rw [h0, if_neg]
  rintro (h | h)
  · exact hy h
  · exact hov h

theorem applyOp_rem (x y : Int) (p : Nat) (hy : y ≠ 0)
    (hov : ¬(x = i32Min ∧ y = -1)) :
    applyOp "%" x y p = .ok (Int.tmod x y) := by
  have h0 : applyOp "%" x y p =
      if y = 0 ∨ (x = i32Min ∧ y = -1) then .error .arithPanic
      else .ok (Int.tmod x y) := rfl
  rw [h0, if_neg]
  rintro (h | h)
  · exact hy h
  · exact hov h

/-- A token other than the five operator symbols reaches the catch-all
`bail!("invalid token at {pos}")` arm. -/
theorem applyOp_unknown (t : String) (x y : Int) (p : Nat)
    (h1 : t ≠ "+") (h2 : t ≠ "-") (h3 : t ≠ "*") (h4 : t ≠ "/") (h5 : t ≠ "%") :
    applyOp t x y p = .error (.invalidTokenAt p) := by
  unfold applyOp
  rw [if_neg h1, if_neg h2, if_neg h3, if_neg h4, if_neg h5]

/-- A character that is an ASCII decimal digit, is not whitespace, and is
neither sign character: the shape of every character `natDecimal` emits. -/
def plainDigit (c : Char) : Bool :=
  c.isDigit && ! isRustWhitespace c && ! (c == '-') && ! (c == '+')

theorem digitChar_plain (d : Nat) (h : d < 10) : plainDigit (digitChar d) = true := by
  interval_cases d <;> decide

theorem digitChar_val (d : Nat) (h : d < 10) :
    (digitChar d).toNat - 48 = d := by
  interval_cases d <;> decide

theorem digitsVal_append_digit (xs : List Char) (c : Char) :
    digitsVal (xs ++ [c]) = 10 * digitsVal xs + (c.toNat - 48) := by
  simp [digitsVal, List.foldl_append]
  omega

/-- With enough fuel, `natDecimalAux` produces a nonempty string of plain
decimal digits whose value is `n`. -/
theorem natDecimalAux_spec (fuel : Nat) : ∀ n, n < fuel →
    (∀ c ∈ natDecimalAux fuel n, plainDigit c = true) ∧
    natDecimalAux fuel n ≠ [] ∧
    digitsVal (natDecimalAux fuel n) = n := by
  induction fuel with
  | zero => intro n h; omega
  | succ fuel ih =>
    intro n h
    by_cases h10 : n < 10
    · simp only [natDecimalAux, if_pos h10]
      refine ⟨?_, by simp, ?_⟩
      · intro c hc
        simp at hc
        rw [hc]
        exact digitChar_plain n h10
      · simp [digitsVal, digitChar_val n h10]
    · have hn : n / 10 < fuel := by
        have hlt : n / 10 < n := Nat.div_lt_self (by omega) (by omega)
        omega
      obtain ⟨ha, hne, hv⟩ := ih (n / 10) hn
      simp only [natDecimalAux, if_neg h10]
      refine ⟨?_, by simp, ?_⟩
      · intro c hc
        rcases List.mem_append.mp hc with hc | hc
        · exact ha c hc
        · simp at hc
          rw [hc]
          exact digitChar_plain (n % 10) (Nat.mod_lt n (by omega))
      · rw [digitsVal_append_digit, hv, digitChar_val (n % 10) (Nat.mod_lt n (by omega))]
        omega

/-- `natDecimal n` is a nonempty string of plain decimal digits of value `n`. -/
theorem natDecimal_spec (n : Nat) :
    (∀ c ∈ natDecimal n, plainDigit c = true) ∧
    natDecimal n ≠ [] ∧
    digitsVal (natDecimal n) = n :=
  natDecimalAux_spec (n + 1) n (Nat.lt_succ_self n)

theorem plainDigit_isDigit (c : Char) (h : plainDigit c = true) : c.isDigit = true := by
  simp [plainDigit] at h
  exact h.1.1.1

theorem plainDigit_not_ws (c : Char) (h : plainDigit c = true) :
    isRustWhitespace c = false := by
  simp [plainDigit] at h
  exact h.1.1.2

theorem plainDigit_ne_minus (c : Char) (h : plainDigit c = true) : c ≠ '-' := by
  simp [plainDigit] at h
  exact h.1.2

theorem plainDigit_ne_plus (c : Char) (h : plainDigit c = true) : c ≠ '+' := by
  simp [plainDigit] at h
  exact h.2

/-- A run of non-whitespace characters is collected into a single token. -/
theorem splitWsAux_not_ws : ∀ cs acc, (∀ c ∈ cs, isRustWhitespace c = false) →
    (acc ≠ [] ∨ cs ≠ []) → splitWsAux cs acc = [acc.reverse ++ cs]
  | [], acc, _, hne => by
    have ha : acc ≠ [] := by
      rcases hne with h | h
      · exact h
      · exact absurd rfl h
    simp [splitWsAux, ha]
  | c :: cs, acc, h, _ => by
    have hc : isRustWhitespace c = false := h c (by simp)
    simp only [splitWsAux, hc]
    rw [splitWsAux_not_ws cs (c :: acc)
      (fun d hd => h d (List.mem_cons_of_mem c hd)) (Or.inl (by simp))]
    simp

/-- A string of only whitespace characters yields no tokens. -/
theorem splitWsAux_all_ws : ∀ cs, (∀ c ∈ cs, isRustWhitespace c = true) →
    splitWsAux cs [] = []
  | [], _ => rfl
  | c :: cs, h => by
    simp only [splitWsAux, h c (by simp)]
    simp only [if_pos rfl, if_pos]
    exact splitWsAux_all_ws cs (fun d hd => h d (List.mem_cons_of_mem c hd))

/-- Every character of `render n` is a digit or the leading minus sign; in
particular none is whitespace. -/
theorem render_data_not_ws (n : Int) :
    ∀ c ∈ (render n).data, isRustWhitespace c = false := by
  intro c hc
  by_cases hn : n < 0
  · simp only [render, if_pos hn] at hc
    rcases List.mem_cons.mp hc with hc | hc
    · rw [hc]; decide
    · exact plainDigit_not_ws c ((natDecimal_spec n.natAbs).1 c hc)
  · simp only [render, if_neg hn] at hc
    exact plainDigit_not_ws c ((natDecimal_spec n.natAbs).1 c hc)

theorem render_data_ne_nil (n : Int) : (render n).data ≠ [] := by
  by_cases hn : n < 0
  · simp [render, hn]
  · simp only [render, if_neg hn]
    exact (natDecimal_spec n.natAbs).2.1

/-- The decimal rendering of an integer splits into exactly that one token. -/
theorem splitWhitespace_render (n : Int) : splitWhitespace (render n) = [render n] := by
  unfold splitWhitespace
  rw [splitWsAux_not_ws (render n).data [] (render_data_not_ws n)
    (Or.inr (render_data_ne_nil n))]
  simp

/-- Any value accepted by the `i32` parse lies in the `i32` range. -/
theorem parseI32_range (s : String) (v : Int) (h : parseI32 s = some v) :
    i32Min ≤ v ∧ v ≤ i32Max := by
  unfold parseI32 at h
  split at h
  · simp at h
  · split at h
    · split at h
      · next hcond =>
        injection h with hv
        rw [← hv]
        exact hcond
      · simp at h
    · simp at h

/-- Round trip: the `i32` parse of the decimal rendering of an in-range
integer recovers that integer. -/
theorem parseI32_render (n : Int) (h1 : i32Min ≤ n) (h2 : n ≤ i32Max) :
    parseI32 (render n) = some n := by
  obtain ⟨ha, hne, hv⟩ := natDecimal_spec n.natAbs
  have hall : (natDecimal n.natAbs).all Char.isDigit = true :=
    List.all_eq_true.mpr (fun c hc => plainDigit_isDigit c (ha c hc))
  by_cases hn : n < 0
  · have hsign : splitSign (render n).data = (-1, natDecimal n.natAbs) := by
      simp [render, hn, splitSign]
    have hvint : (-1 : Int) * (digitsVal (natDecimal n.natAbs) : Int) = n := by
      rw [hv]
      omega
    rw [parseI32, hsign]
    simp only [hne, hall, hvint]
    simp [h1, h2]
  · cases hd : natDecimal n.natAbs with
    | nil => exact absurd hd hne
    | cons c cs =>
      have hc : plainDigit c = true := ha c (by rw [hd]; simp)
      have hsign : splitSign (render n).data = (1, natDecimal n.natAbs) := by
        simp only [render, if_neg hn]
        rw [hd]
        simp [splitSign, plainDigit_ne_minus c hc, plainDigit_ne_plus c hc]
      have hvint : (1 : Int) * (digitsVal (natDecimal n.natAbs) : Int) = n := by
        rw [hv]
        omega
      rw [parseI32, hsign]
      simp only [hne, hall, hvint]
      simp [h1, h2, hne, hall]

/-- Rejection: the `i32` parse of the decimal rendering of an out-of-range
integer fails — the range check of `from_str_radix` returns an error rather
than a truncated or wrapped value. -/
theorem parseI32_render_out (n : Int) (h : n < i32Min ∨ i32Max < n) :
    parseI32 (render n) = none := by
  obtain ⟨ha, hne, hv⟩ := natDecimal_spec n.natAbs
  have hall : (natDecimal n.natAbs).all Char.isDigit = true :=
    List.all_eq_true.mpr (fun c hc => plainDigit_isDigit c (ha c hc))
  have hcond : ¬(i32Min ≤ n ∧ n ≤ i32Max) := by
    simp only [i32Min, i32Max] at h ⊢
    omega
  by_cases hn : n < 0
  · have hsign : splitSign (render n).data = (-1, natDecimal n.natAbs) := by
      simp [render, hn, splitSign]
    have hvint : (-1 : Int) * (digitsVal (natDecimal n.natAbs) : Int) = n := by
      rw [hv]
      omega
    rw [parseI32, hsign]
    simp only [hne, hall, hvint]
    simp [hne, hall, hcond]
  · cases hd : natDecimal n.natAbs with
    | nil => exact absurd hd hne
    | cons c cs =>
      have hc : plainDigit c = true := ha c (by rw [hd]; simp)
      have hsign : splitSign (render n).data = (1, natDecimal n.natAbs) := by
        simp only [render, if_neg hn]
        rw [hd]
        simp [splitSign, plainDigit_ne_minus c hc, plainDigit_ne_plus c hc]
      have hvint : (1 : Int) * (digitsVal (natDecimal n.natAbs) : Int) = n := by
        rw [hv]
        omega
      rw [parseI32, hsign]
      simp only [hne, hall, hvint]
      simp [hne, hall, hcond]

/-- The truncated remainder of a nonpositive dividend is nonpositive. -/
theorem tmod_nonpos_of_nonpos (a b : Int) (h : a ≤ 0) : a.tmod b ≤ 0 := by
  match a, b with
  | .ofNat m, b =>
    rw [Int.ofNat_eq_natCast] at h
    have hm : m = 0 := by omega
    subst hm
    cases b <;> simp [Int.tmod]
  | .negSucc m, b =>
    cases b <;> (show -(Int.ofNat _) ≤ 0
                 rw [Int.ofNat_eq_natCast]
                 omega)

theorem numCount_cons_num (t : String) (ts : List String) (h : isNumTok t = true) :
    numCount (t :: ts) = numCount ts + 1 := by
  simp [numCount, List.countP_cons, h]

theorem opCount_cons_num (t : String) (ts : List String) (h : isNumTok t = true) :
    opCount (t :: ts) = opCount ts := by
  simp [opCount, List.countP_cons, h]

theorem numCount_cons_op (t : String) (ts : List String) (h : isNumTok t = false) :
    numCount (t :: ts) = numCount ts := by
  simp [numCount, List.countP_cons, h]

theorem opCount_cons_op (t : String) (ts : List String) (h : isNumTok t = false) :
    opCount (t :: ts) = opCount ts + 1 := by
  simp [opCount, List.countP_cons, h]

/-- Bookkeeping of the loop: on a successful run each numeric token adds one
to the stack depth and each non-numeric token removes one net. -/
theorem stepsVal_ok_count (ts : List String) : ∀ stack pos st,
    stepsVal ts stack pos = .ok st →
    stack.length + numCount ts = st.length + opCount ts := by
  induction ts with
  | nil =>
    intro stack pos st h
    injection h with h
    rw [h]
    simp [numCount, opCount]
  | cons t ts ih =>
    intro stack pos st h
    simp only [stepsVal] at h
    cases hp : parseI32 t with
    | some x =>
      simp only [hp] at h
      have hrec := ih (x :: stack) (pos + 1) st h
      rw [numCount_cons_num t ts (by simp [isNumTok, hp]),
          opCount_cons_num t ts (by simp [isNumTok, hp])]
      simp only [List.length_cons] at hrec
      omega
    | none =>
      simp only [hp] at h
      cases stack with
      | nil => exact absurd h (by simp)
      | cons y s =>
        cases s with
        | nil => exact absurd h (by simp)
        | cons x s0 =>
          cases hop : applyOp t x y (pos + 1) with
          | error e => simp only [hop] at h; exact absurd h (by simp)
          | ok res =>
            simp only [hop] at h
            have hrec := ih (res :: s0) (pos + 1) st h
            rw [numCount_cons_op t ts (by simp [isNumTok, hp]),
                opCount_cons_op t ts (by simp [isNumTok, hp])]
            simp only [List.length_cons] at hrec ⊢
            omega

/-- Bookkeeping of the loop: on a successful run, every non-numeric token is
reached with at least two values on the stack. -/
theorem stepsVal_ok_depth (ts : List String) : ∀ stack pos st,
    stepsVal ts stack pos = .ok st →
    ∀ i, i < ts.length → isNumTok (ts.getD i "") = false →
      opCount (ts.take i) + 2 ≤ stack.length + numCount (ts.take i) := by
  induction ts with
  | nil =>
    intro stack pos st h i hi
    simp at hi
  | cons t ts ih =>
    intro stack pos st h i hi hnum
    simp only [stepsVal] at h
    cases hp : parseI32 t with
    | some x =>
      simp only [hp] at h
      cases i with
      | zero =>
        simp only [List.getD_cons_zero, isNumTok, hp] at hnum
        simp at hnum
      | succ j =>
        have hj : j < ts.length := by simp at hi; omega
        have hnj : isNumTok (ts.getD j "") = false := by simpa using hnum
        have hrec := ih (x :: stack) (pos + 1) st h j hj hnj
        rw [List.take_succ_cons,
            numCount_cons_num t _ (by simp [isNumTok, hp]),
            opCount_cons_num t _ (by simp [isNumTok, hp])]
        simp only [List.length_cons] at hrec
        omega
    | none =>
      simp only [hp] at h
      cases stack with
      | nil => exact absurd h (by simp)
      | cons y s =>
        cases s with
        | nil => exact absurd h (by simp)
        | cons x s0 =>
          cases hop : applyOp t x y (pos + 1) with
          | error e => simp only [hop] at h; exact absurd h (by simp)
          | ok res =>
            simp only [hop] at h
            cases i with
            | zero => simp [numCount, opCount]
            | succ j =>
              have hj : j < ts.length := by simp at hi; omega
              have hnj : isNumTok (ts.getD j "") = false := by simpa using hnum
              have hrec := ih (res :: s0) (pos + 1) st h j hj hnj
              rw [List.take_succ_cons,
                  numCount_cons_op t _ (by simp [isNumTok, hp]),
                  opCount_cons_op t _ (by simp [isNumTok, hp])]
              simp only [List.length_cons] at hrec ⊢
              omega

/-- An `Ok` result of `eval_inner` comes from a loop run ending with exactly
one value on the stack. -/
theorem evalVal_ok_steps (ts : List String) (v : Int) (h : evalVal ts = .ok v) :
    stepsVal ts [] 0 = .ok [v] := by
  unfold evalVal at h
  cases hE : stepsVal ts [] 0 with
  | error e => rw [hE] at h; simp at h
  | ok st =>
    rw [hE] at h
    cases st with
    | nil => simp at h
    | cons w s =>
      cases s with
      | nil =>
        injection h with h
        rw [h]
      | cons u s2 => simp at h

/-- Evaluating a three-token formula `ta tb top` where the first two tokens
parse as numbers and the third is handled by the operator match. -/
theorem evalVal_three (ta tb top : String) (a b res : Int)
    (ha : parseI32 ta = some a) (hb : parseI32 tb = some b)
    (ht : parseI32 top = none) (happ : applyOp top a b 3 = .ok res) :
    evalVal [ta, tb, top] = .ok res := by
  unfold evalVal
  simp only [stepsVal, ha, hb, ht]
  norm_num at happ ⊢
  simp only [happ]

/-- With the verbose flag unset, the loop prints nothing. -/
theorem evalStepsT_false_trace (ts : List String) : ∀ stack pos,
    (evalStepsT false ts stack pos).2 = [] := by
  induction ts with
  | nil => intro s p; rfl
  | cons t ts ih =>
    intro s p
    simp only [evalStepsT]
    cases hp : parseI32 t with
    | some x => simp [hp, ih]
    | none =>
      simp only [hp]
      cases s with
      | nil => simp
      | cons y s2 =>
        cases s2 with
        | nil => simp
        | cons x s0 =>
          cases hop : applyOp t x y (p + 1) with
          | ok res => simp [hop, ih]
          | error e => simp [hop]

/-- C1: for a formula of exactly three tokens `a b op` whose first two tokens
parse as `i32` values and whose third is one of `+ - * / %`, `eval` returns
`Ok` of the corresponding 32-bit operation with `x = a`, `y = b`: sum,
difference, product, truncated quotient, and remainder whose sign matches the
sign of `x` — provided the operation does not overflow and `y ≠ 0` for `/`
and `%`. -/
theorem claim_C1 :
    (∀ (c : RpnCalculator) (f ta tb : String) (a b : Int),
      splitWhitespace f = [ta, tb, "+"] →
      parseI32 ta = some a → parseI32 tb = some b →
      i32Min ≤ a + b → a + b ≤ i32Max →
      (c.eval f).1 = .ok (a + b)) ∧
    (∀ (c : RpnCalculator) (f ta tb : String) (a b : Int),
      splitWhitespace f = [ta, tb, "-"] →
      parseI32 ta = some a → parseI32 tb = some b →
      i32Min ≤ a - b → a - b ≤ i32Max →
      (c.eval f).1 = .ok (a - b)) ∧
    (∀ (c : RpnCalculator) (f ta tb : String) (a b : Int),
      splitWhitespace f = [ta, tb, "*"] →
      parseI32 ta = some a → parseI32 tb = some b →
      i32Min ≤ a * b → a * b ≤ i32Max →
      (c.eval f).1 = .ok (a * b)) ∧
    (∀ (c : RpnCalculator) (f ta tb : String) (a b : Int),
      splitWhitespace f = [ta, tb, "/"] →
      parseI32 ta = some a → parseI32 tb = some b →
      b ≠ 0 → ¬(a = i32Min ∧ b = -1) →
      (c.eval f).1 = .ok (Int.tdiv a b)) ∧
    (∀ (c : RpnCalculator) (f ta tb : String) (a b : Int),
      splitWhitespace f = [ta, tb, "%"] →
      parseI32 ta = some a → parseI32 tb = some b →
      b ≠ 0 → ¬(a = i32Min ∧ b = -1) →
      (c.eval f).1 = .ok (Int.tmod a b) ∧
      (0 ≤ a → 0 ≤ Int.tmod a b) ∧ (a ≤ 0 → Int.tmod a b ≤ 0)) := by
  refine ⟨?_, ?_, ?_, ?_, ?_⟩
  · intro c f ta tb a b hsplit ha hb h1 h2
    rw [eval_fst, hsplit]
    rw [evalVal_three ta tb "+" a b (wrap32 (a + b)) ha hb parseI32_plus
      (applyOp_add a b 3)]
    rw [wrap32_eq_self (a + b) h1 h2]
  · intro c f ta tb a b hsplit ha hb h1 h2
    rw [eval_fst, hsplit]
    rw [evalVal_three ta tb "-" a b (wrap32 (a - b)) ha hb parseI32_minus
      (applyOp_sub a b 3)]
    rw [wrap32_eq_self (a - b) h1 h2]
  · intro c f ta tb a b hsplit ha hb h1 h2
    rw [eval_fst, hsplit]
    rw [evalVal_three ta tb "*" a b (wrap32 (a * b)) ha hb parseI32_star
      (applyOp_mul a b 3)]
    rw [wrap32_eq_self (a * b) h1 h2]
  · intro c f ta tb a b hsplit ha hb hy hov
    rw [eval_fst, hsplit]
    rw [evalVal_three ta tb "/" a b (Int.tdiv a b) ha hb parseI32_slash
      (applyOp_div a b 3 hy hov)]
  · intro c f ta tb a b hsplit ha hb hy hov
    refine ⟨?_, fun hge => Int.tmod_nonneg b hge, fun hle => tmod_nonpos_of_nonpos a b hle⟩
    rw [eval_fst, hsplit]
    rw [evalVal_three ta tb "%" a b (Int.tmod a b) ha hb parseI32_percent
      (applyOp_rem a b 3 hy hov)]

/-- Witness for C1: all five operators evaluated at concrete formulas. -/
theorem claim_C1_witness :
    ((RpnCalculator.new false).eval "2 3 +").1 = .ok 5 ∧
    ((RpnCalculator.new false).eval "2 3 -").1 = .ok (-1) ∧
    ((RpnCalculator.new false).eval "2 3 *").1 = .ok 6 ∧
    ((RpnCalculator.new false).eval "7 -2 /").1 = .ok (-3) ∧
    ((RpnCalculator.new false).eval "-7 2 %").1 = .ok (-1) := by
  refine ⟨?_, ?_, ?_, ?_, ?_⟩
  · have h := claim_C1.1 (RpnCalculator.new false) "2 3 +" "2" "3" 2 3
      (by decide) (by decide) (by decide) (by decide) (by decide)
    simpa using h
  · have h := claim_C1.2.1 (RpnCalculator.new false) "2 3 -" "2" "3" 2 3
      (by decide) (by decide) (by decide) (by decide) (by decide)
    simpa using h
  · have h := claim_C1.2.2.1 (RpnCalculator.new false) "2 3 *" "2" "3" 2 3
      (by decide) (by decide) (by decide) (by decide) (by decide)
    simpa using h
  · have h := claim_C1.2.2.2.1 (RpnCalculator.new false) "7 -2 /" "7" "-2" 7 (-2)
      (by decide) (by decide) (by decide) (by decide) (by decide)
    simpa using h
  · have h := (claim_C1.2.2.2.2 (RpnCalculator.new false) "-7 2 %" "-7" "2" (-7) 2
      (by decide) (by decide) (by decide) (by decide) (by decide)).1
    simpa using h

/-- C2: whenever a token that does not parse as an `i32` is processed while
the operand stack holds fewer than 2 values, `eval` fails with the
invalid-syntax error carrying that token's 1-based position — regardless of
whether the token is one of the five operator symbols, because the pops are
checked before the operator match. -/
theorem claim_C2 (c : RpnCalculator) (f : String) (pre : List String)
    (t : String) (post : List String) (stack : List Int)
    (hsplit : splitWhitespace f = pre ++ t :: post)
    (hrun : stepsVal pre [] 0 = .ok stack)
    (ht : parseI32 t = none)
    (hlen : stack.length < 2) :
    (c.eval f).1 = .error (.invalidSyntaxAt (pre.length + 1)) := by
  rw [eval_fst, hsplit]
  unfold evalVal
  rw [stepsVal_append]
  simp only [hrun, stepsVal, ht]
  cases stack with
  | nil => simp
  | cons y s =>
    cases s with
    | nil => simp
    | cons x s0 =>
      simp only [List.length_cons] at hlen
      exact absurd hlen (by omega)

/-- Witness for C2: `^ 1 1` fails at position 1 with invalid syntax (not
invalid token), because the stack is checked before the operator symbol. -/
theorem claim_C2_witness :
    ((RpnCalculator.new false).eval "^ 1 1").1 = .error (.invalidSyntaxAt 1) := by
  have h := claim_C2 (RpnCalculator.new false) "^ 1 1" [] "^" ["1", "1"] []
    (by decide) (by decide) (by decide) (by decide)
  simpa using h

/-- C3: when every token is processed without a per-token error, `eval`
returns the sole stack value when the final depth is exactly 1 and fails
with the positionless invalid-syntax error otherwise; empty or
whitespace-only input yields zero tokens, hence an empty final stack, hence
that same error. -/
theorem claim_C3 :
    (∀ (c : RpnCalculator) (f : String) (st : List Int),
      stepsVal (splitWhitespace f) [] 0 = .ok st →
      (st.length = 1 → (c.eval f).1 = .ok (st.getD 0 0)) ∧
      (st.length ≠ 1 → (c.eval f).1 = .error .invalidSyntaxFinal)) ∧
    (∀ (c : RpnCalculator) (f : String),
      (∀ ch ∈ f.data, isRustWhitespace ch = true) →
      splitWhitespace f = [] ∧ (c.eval f).1 = .error .invalidSyntaxFinal) := by
  constructor
  · intro c f st h
    have he : (c.eval f).1 = evalVal (splitWhitespace f) := eval_fst c f
    constructor
    · intro hlen
      cases st with
      | nil => simp at hlen
      | cons v s =>
        cases s with
        | nil =>
          rw [he]
          unfold evalVal
          simp only [h]
          simp
        | cons w s2 => simp at hlen
    · intro hlen
      rw [he]
      unfold evalVal
      simp only [h]
      cases st with
      | nil => simp
      | cons v s =>
        cases s with
        | nil => simp at hlen
        | cons w s2 => simp
  · intro c f hws
    have hsplit : splitWhitespace f = [] := by
      unfold splitWhitespace
      rw [splitWsAux_all_ws f.data hws]
      rfl
    refine ⟨hsplit, ?_⟩
    rw [eval_fst, hsplit]
    rfl

/-- Witness for C3: `1 2` leaves two values and errors; three spaces split
to no tokens and error. -/
theorem claim_C3_witness :
    ((RpnCalculator.new false).eval "1 2").1 = .error .invalidSyntaxFinal ∧
    ((RpnCalculator.new false).eval "   ").1 = .error .invalidSyntaxFinal := by
  constructor
  · exact ((claim_C3.1 (RpnCalculator.new false) "1 2" [2, 1] (by decide)).2 (by decide))
  · exact (claim_C3.2 (RpnCalculator.new false) "   " (by decide)).2

/-- C4: a token that neither parses as an `i32` nor is one of `+ - * / %`,
processed while the stack holds at least 2 values, makes `eval` fail with
the invalid-token error carrying that token's 1-based position. -/
theorem claim_C4 (c : RpnCalculator) (f : String) (pre : List String)
    (t : String) (post : List String) (stack : List Int)
    (hsplit : splitWhitespace f = pre ++ t :: post)
    (hrun : stepsVal pre [] 0 = .ok stack)
    (ht : parseI32 t = none)
    (hnotop : t ∉ (["+", "-", "*", "/", "%"] : List String))
    (hlen : 2 ≤ stack.length) :
    (c.eval f).1 = .error (.invalidTokenAt (pre.length + 1)) := by
  simp only [List.mem_cons, not_or] at hnotop
  obtain ⟨h1, h2, h3, h4, h5, _⟩ := hnotop
  cases stack with
  | nil => simp at hlen
  | cons y s =>
    cases s with
    | nil => simp at hlen
    | cons x s0 =>
      rw [eval_fst, hsplit]
      unfold evalVal
      rw [stepsVal_append]
      simp only [hrun, stepsVal, ht]
      rw [applyOp_unknown t x y (0 + pre.length + 1) h1 h2 h3 h4 h5]
      simp

/-- Witness for C4: `2 3 ^` fails with invalid token at position 3. -/
theorem claim_C4_witness :
    ((RpnCalculator.new false).eval "2 3 ^").1 = .error (.invalidTokenAt 3) := by
  have h := claim_C4 (RpnCalculator.new false) "2 3 ^" ["2", "3"] "^" [] [3, 2]
    (by decide) (by decide) (by decide) (by decide) (by decide)
  simpa using h

/-- C5 counterexample: contrary to the claim, a token with a leading plus
sign IS classified as numeric (Rust's `i32` parse accepts an optional
leading `+`), so the one-token formula `+5` evaluates to `Ok(5)` instead of
taking the operator branch. -/
theorem claim_C5_counterexample :
    parseI32 "+5" = some 5 ∧
    ((RpnCalculator.new false).eval "+5").1 = .ok 5 := by decide

/-- C5 amended: a leading-plus token such as `+5` parses as numeric and is
pushed, so `+5` evaluates to `Ok(5)`; tokens with underscores or a
non-decimal base prefix are not numeric and take the operator branch (here:
invalid syntax at position 1 on an empty stack). -/
theorem claim_C5_amended :
    parseI32 "+5" = some 5 ∧
    ((RpnCalculator.new false).eval "+5").1 = .ok 5 ∧
    parseI32 "1_000" = none ∧
    parseI32 "0x1F" = none ∧
    ((RpnCalculator.new false).eval "1_000").1 = .error (.invalidSyntaxAt 1) ∧
    ((RpnCalculator.new false).eval "0x1F").1 = .error (.invalidSyntaxAt 1) := by
  decide

/-- C6: for every integer `n` in the `i32` range, evaluating the formula
consisting solely of the decimal rendering of `n` (with a leading minus for
negative `n`) returns `Ok(n)`; the numeric parse only ever accepts values
inside the `i32` range; and the parse of the decimal rendering of an
out-of-range integer is rejected outright (`none`), so such a token is never
pushed as a truncated or wrapped value — the one-token formula errors
instead of producing any value. -/
theorem claim_C6 :
    (∀ (c : RpnCalculator) (n : Int), i32Min ≤ n → n ≤ i32Max →
      (c.eval (render n)).1 = .ok n) ∧
    (∀ (s : String) (v : Int), parseI32 s = some v → i32Min ≤ v ∧ v ≤ i32Max) ∧
    (∀ (c : RpnCalculator) (n : Int), n < i32Min ∨ i32Max < n →
      parseI32 (render n) = none ∧
      (c.eval (render n)).1 = .error (.invalidSyntaxAt 1)) := by
  refine ⟨?_, parseI32_range, ?_⟩
  · intro c n h1 h2
    rw [eval_fst, splitWhitespace_render]
    unfold evalVal
    simp only [stepsVal, parseI32_render n h1 h2]
  · intro c n h
    refine ⟨parseI32_render_out n h, ?_⟩
    rw [eval_fst, splitWhitespace_render]
    unfold evalVal
    simp only [stepsVal, parseI32_render_out n h]

/-- Witness for C6: `render (-50) = "-50"` evaluates to `-50`; the in-range
fact for the accepted literal `-7`; and the out-of-range literal
`render 2147483648 = "2147483648"` parses to `none` and the one-token
formula fails with invalid syntax at position 1. -/
theorem claim_C6_witness :
    ((RpnCalculator.new false).eval (render (-50))).1 = .ok (-50) ∧
    (i32Min ≤ (-7 : Int) ∧ (-7 : Int) ≤ i32Max) ∧
    parseI32 (render 2147483648) = none ∧
    ((RpnCalculator.new false).eval (render 2147483648)).1 =
      .error (.invalidSyntaxAt 1) := by
  refine ⟨?_, ?_, ?_, ?_⟩
  · exact claim_C6.1 (RpnCalculator.new false) (-50) (by decide) (by decide)
  · exact claim_C6.2.1 "-7" (-7) (by decide)
  · exact (claim_C6.2.2 (RpnCalculator.new false) 2147483648 (by decide)).1
  · exact (claim_C6.2.2 (RpnCalculator.new false) 2147483648 (by decide)).2

/-- C7: on every formula `eval` accepts, the token counts satisfy
`numeric − operator = 1`, and every non-numeric token is reached with at
least two more numeric than non-numeric tokens before it (stack depth ≥ 2
at each operator). -/
theorem claim_C7 (c : RpnCalculator) (f : String) (v : Int)
    (h : (c.eval f).1 = .ok v) :
    numCount (splitWhitespace f) = opCount (splitWhitespace f) + 1 ∧
    ∀ i, i < (splitWhitespace f).length →
      isNumTok ((splitWhitespace f).getD i "") = false →
      opCount ((splitWhitespace f).take i) + 2 ≤
        numCount ((splitWhitespace f).take i) := by
  rw [eval_fst] at h
  have hsteps := evalVal_ok_steps _ _ h
  constructor
  · have hc := stepsVal_ok_count _ _ _ _ hsteps
    simp only [List.length_nil, List.length_cons] at hc
    omega
  · intro i hi hn
    have hd := stepsVal_ok_depth _ _ _ _ hsteps i hi hn
    simpa using hd

/-- Witness for C7: `1 2 + 4 *` evaluates to 12; its counts are 3 numerics
and 2 operators, and the operator at index 2 is reached with 2 numerics. -/
theorem claim_C7_witness :
    numCount (splitWhitespace "1 2 + 4 *") =
      opCount (splitWhitespace "1 2 + 4 *") + 1 ∧
    opCount ((splitWhitespace "1 2 + 4 *").take 2) + 2 ≤
      numCount ((splitWhitespace "1 2 + 4 *").take 2) := by
  have h := claim_C7 (RpnCalculator.new false) "1 2 + 4 *" 12 (by decide)
  exact ⟨h.1, h.2 2 (by decide) (by decide)⟩

/-- C8: operator-specific algebraic laws over in-range integers where no
overflow occurs, tokens being decimal renderings: `a b +` = `b a +`;
`a b *` = `b a *`; `a 0 +` = `a`; `a 1 *` = `a`; `a a -` = `0`. -/
theorem claim_C8 :
    (∀ (c : RpnCalculator) (f g : String) (a b : Int),
      i32Min ≤ a → a ≤ i32Max → i32Min ≤ b → b ≤ i32Max →
      i32Min ≤ a + b → a + b ≤ i32Max →
      splitWhitespace f = [render a, render b, "+"] →
      splitWhitespace g = [render b, render a, "+"] →
      (c.eval f).1 = (c.eval g).1) ∧
    (∀ (c : RpnCalculator) (f g : String) (a b : Int),
      i32Min ≤ a → a ≤ i32Max → i32Min ≤ b → b ≤ i32Max →
      i32Min ≤ a * b → a * b ≤ i32Max →
      splitWhitespace f = [render a, render b, "*"] →
      splitWhitespace g = [render b, render a, "*"] →
      (c.eval f).1 = (c.eval g).1) ∧
    (∀ (c : RpnCalculator) (f : String) (a : Int),
      i32Min ≤ a → a ≤ i32Max →
      splitWhitespace f = [render a, render 0, "+"] →
      (c.eval f).1 = .ok a) ∧
    (∀ (c : RpnCalculator) (f : String) (a : Int),
      i32Min ≤ a → a ≤ i32Max →
      splitWhitespace f = [render a, render 1, "*"] →
      (c.eval f).1 = .ok a) ∧
    (∀ (c : RpnCalculator) (f : String) (a : Int),
      i32Min ≤ a → a ≤ i32Max →
      splitWhitespace f = [render a, render a, "-"] →
      (c.eval f).1 = .ok 0) := by
  refine ⟨?_, ?_, ?_, ?_, ?_⟩
  · intro c f g a b hA1 hA2 hB1 hB2 hS1 hS2 hf hg
    rw [eval_fst, eval_fst, hf, hg]
    rw [evalVal_three (render a) (render b) "+" a b (wrap32 (a + b))
      (parseI32_render a hA1 hA2) (parseI32_render b hB1 hB2)
      parseI32_plus (applyOp_add a b 3)]
    rw [evalVal_three (render b) (render a) "+" b a (wrap32 (b + a))
      (parseI32_render b hB1 hB2) (parseI32_render a hA1 hA2)
      parseI32_plus (applyOp_add b a 3)]
    rw [Int.add_comm b a]
  · intro c f g a b hA1 hA2 hB1 hB2 hS1 hS2 hf hg
    rw [eval_fst, eval_fst, hf, hg]
    rw [evalVal_three (render a) (render b) "*" a b (wrap32 (a * b))
      (parseI32_render a hA1 hA2) (parseI32_render b hB1 hB2)
      parseI32_star (applyOp_mul a b 3)]
    rw [evalVal_three (render b) (render a) "*" b a (wrap32 (b * a))
      (parseI32_render b hB1 hB2) (parseI32_render a hA1 hA2)
      parseI32_star (applyOp_mul b a 3)]
    rw [Int.mul_comm b a]
  · intro c f a hA1 hA2 hf
    rw [eval_fst, hf]
    rw [evalVal_three (render a) (render 0) "+" a 0 (wrap32 (a + 0))
      (parseI32_render a hA1 hA2) (parseI32_render 0 (by decide) (by decide))
      parseI32_plus (applyOp_add a 0 3)]
    rw [Int.add_zero, wrap32_eq_self a hA1 hA2]
  · intro c f a hA1 hA2 hf
    rw [eval_fst, hf]
    rw [evalVal_three (render a) (render 1) "*" a 1 (wrap32 (a * 1))
      (parseI32_render a hA1 hA2) (parseI32_render 1 (by decide) (by decide))
      parseI32_star (applyOp_mul a 1 3)]
    rw [Int.mul_one, wrap32_eq_self a hA1 hA2]
  · intro c f a hA1 hA2 hf
    rw [eval_fst, hf]
    rw [evalVal_three (render a) (render a) "-" a a (wrap32 (a - a))
      (parseI32_render a hA1 hA2) (parseI32_render a hA1 hA2)
      parseI32_minus (applyOp_sub a a 3)]
    rw [Int.sub_self]
    rw [show wrap32 0 = (0 : Int) from by decide]

/-- Witness for C8: the five laws at concrete formulas. -/
theorem claim_C8_witness :
    ((RpnCalculator.new false).eval "2 3 +").1 =
      ((RpnCalculator.new false).eval "3 2 +").1 ∧
    ((RpnCalculator.new false).eval "2 3 *").1 =
      ((RpnCalculator.new false).eval "3 2 *").1 ∧
    ((RpnCalculator.new false).eval "7 0 +").1 = .ok 7 ∧
    ((RpnCalculator.new false).eval "7 1 *").1 = .ok 7 ∧
    ((RpnCalculator.new false).eval "7 7 -").1 = .ok 0 := by
  refine ⟨?_, ?_, ?_, ?_, ?_⟩
  · exact claim_C8.1 (RpnCalculator.new false) "2 3 +" "3 2 +" 2 3
      (by decide) (by decide) (by decide) (by decide) (by decide) (by decide)
      (by decide) (by decide)
  · exact claim_C8.2.1 (RpnCalculator.new false) "2 3 *" "3 2 *" 2 3
      (by decide) (by decide) (by decide) (by decide) (by decide) (by decide)
      (by decide) (by decide)
  · exact claim_C8.2.2.1 (RpnCalculator.new false) "7 0 +" 7
      (by decide) (by decide) (by decide)
  · exact claim_C8.2.2.2.1 (RpnCalculator.new false) "7 1 *" 7
      (by decide) (by decide) (by decide)
  · exact claim_C8.2.2.2.2 (RpnCalculator.new false) "7 7 -" 7
      (by decide) (by decide) (by decide)

/-- C9: evaluation is a pure function of the formula and the verbosity flag:
two evaluator instances with the same verbosity produce identical results
(value and trace) on every formula — there is no other state. -/
theorem claim_C9 (c1 c2 : RpnCalculator) (h : c1.verbose = c2.verbose)
    (f : String) : c1.eval f = c2.eval f := by
  cases c1
  cases c2
  cases h
  rfl

/-- Witness for C9: two independently constructed non-verbose calculators
agree on `2 3 +`. -/
theorem claim_C9_witness :
    (RpnCalculator.new false).eval "2 3 +" =
      (RpnCalculator.mk false).eval "2 3 +" :=
  claim_C9 (RpnCalculator.new false) (RpnCalculator.mk false) rfl "2 3 +"

/-- C10: the verbosity flag never influences the returned value — only the
diagnostic trace, which is empty when the flag is unset. -/
theorem claim_C10 : ∀ (v1 v2 : Bool) (f : String),
    ((RpnCalculator.new v1).eval f).1 = ((RpnCalculator.new v2).eval f).1 ∧
    ((RpnCalculator.new false).eval f).2 = [] := by
  intro v1 v2 f
  constructor
  · rw [eval_fst, eval_fst]
  · show (evalInnerT false (splitWhitespace f)).2 = []
    unfold evalInnerT
    have h2 := evalStepsT_false_trace (splitWhitespace f) [] 0
    cases hE : evalStepsT false (splitWhitespace f) [] 0 with
    | mk r tr =>
      rw [hE] at h2
      cases r with
      | error e => simpa using h2
      | ok st =>
        cases st with
        | nil => simpa using h2
        | cons v s =>
          cases s with
          | nil => simpa using h2
          | cons w s2 => simpa using h2

/-- The embedding reproduces the crate's own unit tests `test_ok` and
`test_ng` from `main.rs`, plus the verbose trace of `2 3 +`. -/
theorem rust_unit_tests :
    ((RpnCalculator.new false).eval "5").1 = .ok 5 ∧
    ((RpnCalculator.new false).eval "50").1 = .ok 50 ∧
    ((RpnCalculator.new false).eval "-50").1 = .ok (-50) ∧
    ((RpnCalculator.new false).eval "2 3 +").1 = .ok 5 ∧
    ((RpnCalculator.new false).eval "2 3 *").1 = .ok 6 ∧
    ((RpnCalculator.new false).eval "2 3 -").1 = .ok (-1) ∧
    ((RpnCalculator.new false).eval "2 3 /").1 = .ok 0 ∧
    ((RpnCalculator.new false).eval "2 3 %").1 = .ok 2 ∧
    ((RpnCalculator.new false).eval "").1 = .error .invalidSyntaxFinal ∧
    ((RpnCalculator.new false).eval "1 1 1 +").1 = .error .invalidSyntaxFinal ∧
    ((RpnCalculator.new false).eval "+ 1 1").1 = .error (.invalidSyntaxAt 1) ∧
    ((RpnCalculator.new true).eval "2 3 +").2 =
      [(["+", "3"], [2]), (["+"], [2, 3]), ([], [5])] := by
  decide
